import Mathlib

/-!
Shallow embedding of the `json-px` JSON Pointer / JSON Patch library
(src/src/pointer.ts, src/src/patch.ts, src/src/helpers.ts, src/src/types.ts).

JavaScript runtime values reachable in this library are modelled by the
inductive `JSON` below: `null` and `undefined` are separate constructors
because the code distinguishes them (`=== undefined` checks, truthiness).
Numbers are modelled as integers (the library is exercised on integral
JSON numbers; no floating-point behaviour is relied upon by the code
under study).  JavaScript objects are modelled as association lists with
pairwise-distinct keys, which is an invariant of every JavaScript object.

Exceptions (`throw new Error(msg)`) are modelled by `Except PErr`, with
one `PErr` constructor per distinct `throw` site; `PErr.message` renders
the exact message string of the corresponding `throw`.

The patch operations in `patch.ts` pass the pointer and the (cloned)
document to `evaluate` in the opposite order to the declared parameter
list of `evaluate` in `pointer.ts`; the embedding applies the document
and the pointer in their declared roles, the only type-correct reading
and the one under which the test suites of the repository pass.  In-place
mutation of the `structuredClone`d document is translated to functional
rebuilding along the resolved path (`modifyTokens`).
-/

namespace JsonPx

/-- JSON-like runtime value (src/src/types.ts `JSONValue`, extended with
the JavaScript `null` and `undefined` values the code tests for). -/
inductive JSON where
  | null : JSON
  | undefined : JSON
  | bool : Bool → JSON
  | num : Int → JSON
  | str : String → JSON
  | arr : List JSON → JSON
  | obj : List (String × JSON) → JSON
deriving Repr

/-- Function `isObject` from helpers.ts: true when `typeof` yields
`object`, the value is not an Array, and the value is not `null`.
True exactly for plain objects: arrays and `null` are rejected. -/
def isObject : JSON → Bool
  | .obj _ => true
  | _ => false

/-- JavaScript truthiness on JSON values (used by `if (!acc)`,
`if (!target[index])` and `if (!lastEl)` checks in the source). -/
def truthy : JSON → Bool
  | .null => false
  | .undefined => false
  | .bool b => b
  | .num n => n != 0
  | .str s => !s.isEmpty
  | .arr _ => true
  | .obj _ => true

/-- Test `t === undefined` on JSON values. -/
def isUndefined : JSON → Bool
  | .undefined => true
  | _ => false

/-- Check `Object.hasOwn(kvs, k)` on the association-list model. -/
def hasOwn (kvs : List (String × JSON)) (k : String) : Bool :=
  kvs.any (fun kv => kv.1 == k)

/-- Read `kvs[k]` on the association-list model: the stored value, or the
JavaScript `undefined` when the key is absent. -/
def getV (kvs : List (String × JSON)) (k : String) : JSON :=
  match kvs.find? (fun kv => kv.1 == k) with
  | some kv => kv.2
  | none => .undefined

/-- Assignment `kvs[k] = v`: an existing key keeps its position and gets the new
value, a new key is appended (JavaScript property-assignment order). -/
def setK (kvs : List (String × JSON)) (k : String) (v : JSON) : List (String × JSON) :=
  if hasOwn kvs k then kvs.map (fun kv => if kv.1 == k then (kv.1, v) else kv)
  else kvs ++ [(k, v)]

/-- Deletion `delete kvs[k]`. -/
def delK (kvs : List (String × JSON)) (k : String) : List (String × JSON) :=
  kvs.filter (fun kv => kv.1 != k)

/-- The split `String.prototype.split` at `/` on character lists: JavaScript splits
on every occurrence of the separator, an empty string yields `[""]`. -/
def splitSlash : List Char → List (List Char)
  | [] => [[]]
  | c :: rest =>
    if c = '/' then [] :: splitSlash rest
    else
      match splitSlash rest with
      | [] => [[c]]
      | t :: ts => (c :: t) :: ts

/-- The join `Array.prototype.join` with `/` on character-list tokens. -/
def joinSlash : List (List Char) → List Char
  | [] => []
  | [t] => t
  | t :: ts => t ++ '/' :: joinSlash ts

/-- One global-replace pass of the two-character pattern `p q` by the
single character `r`, scanning left to right without overlap — the
semantics of `str.replace(/pq/g, 'r')` for a fixed two-character
pattern. -/
def replacePairGo (p q r : Char) : Char → List Char → List Char
  | a, [] => [a]
  | a, b :: rest =>
    if a = p ∧ b = q then
      match rest with
      | [] => [r]
      | c :: rest2 => r :: replacePairGo p q r c rest2
    else a :: replacePairGo p q r b rest

def replacePair (p q r : Char) : List Char → List Char
  | [] => []
  | a :: rest => replacePairGo p q r a rest

/-- The global replace of `~` by `~0`: a single-character global replace
is a character-wise expansion. -/
def escapeTilde : List Char → List Char
  | [] => []
  | c :: rest => (if c = '~' then ['~', '0'] else [c]) ++ escapeTilde rest

/-- The global replace of `/` by `~1`. -/
def escapeSlash : List Char → List Char
  | [] => []
  | c :: rest => (if c = '/' then ['~', '1'] else [c]) ++ escapeSlash rest

/-- Function `escapeToken` from pointer.ts: replace every `~` by `~0`,
then every `/` by `~1`. -/
def escapeToken (s : String) : String :=
  String.mk (escapeSlash (escapeTilde s.data))

/-- Function `unescapeToken` from helpers.ts on character lists: replace
every `~1` by `/`, then every `~0` by `~` — the `~1` pass runs before
the `~0` pass. -/
def unescapeTokenL (l : List Char) : List Char :=
  replacePair '~' '0' '~' (replacePair '~' '1' '/' l)

/-- Function `unescapeToken` from helpers.ts. -/
def unescapeToken (s : String) : String :=
  String.mk (unescapeTokenL s.data)

/-- The token list of `interpretPath` from helpers.ts:
`pointer.split('/').map(unescapeToken)`. -/
def interpretPaths (pointer : String) : List (List Char) :=
  (splitSlash pointer.data).map unescapeTokenL

/-- The unsigned-integer token pattern `/^\d+$/`. -/
def isUIntTokenL (t : List Char) : Bool :=
  !t.isEmpty && t.all Char.isDigit

/-- Parse `parseInt(token, 10)` on a token matching `/^\d+$/`. -/
def parseDecL (t : List Char) : Nat :=
  t.foldl (fun n c => n * 10 + (c.toNat - 48)) 0

/-- One error constructor per `throw new Error(...)` site of the
library; `PErr.message` renders the exact thrown message. -/
inductive PErr where
  | rootNotObject : PErr
  | invalidPointer : String → PErr
  | unresolvablePointer : String → PErr
  | invalidArrayReference : PErr
  | invalidArrayIndex : String → PErr
  | arrayIndexOutOfBounds : Nat → PErr
  | keyNotFound : String → PErr
  | cannotResolve : String → PErr
  | invalidJsonPointer : String → PErr
  | invalidPointerOperation : PErr
  | indexTooLarge : String → Nat → PErr
  | invalidAddOperation : String → PErr
  | invalidRemovePointer : String → PErr
  | cannotRemoveNonArray : PErr
  | nonExistentElement : PErr
  | undefinedAtTarget : PErr
  | invalidRemoveOperation : String → PErr
  | testMismatch : PErr
deriving Repr, DecidableEq

/-- The exact message text of each `throw new Error(...)` in the source. -/
def PErr.message : PErr → String
  | .rootNotObject => "The root object is not a valid JSON object."
  | .invalidPointer p => s!"Invalid JSON Pointer: {p}"
  | .unresolvablePointer p => s!"Unable to resolve pointer: {p}"
  | .invalidArrayReference => "Invalid reference: \x27-\x27 points to a non-existent array element."
  | .invalidArrayIndex t => s!"Invalid array index: {t}"
  | .arrayIndexOutOfBounds i => s!"Array index out of bounds: {i}"
  | .keyNotFound t => s!"Key not found: {t}"
  | .cannotResolve t => s!"Cannot resolve token \x27{t}\x27 in non-object, non-array value."
  | .invalidJsonPointer p => s!"Invalid JSON pointer: {p}"
  | .invalidPointerOperation => "Invalid pointer operation on target."
  | .indexTooLarge t n => s!"Pointer index: {t} must not be greater than target array length: {n}."
  | .invalidAddOperation p => s!"Invalid add operation for pointer: {p}"
  | .invalidRemovePointer p => s!"Invalid pointer for remove operation: {p}"
  | .cannotRemoveNonArray => "Cannot remove array elements at non-Array target."
  | .nonExistentElement => "Attempting to index non-existent element at target array."
  | .undefinedAtTarget => "Attempting to access undefined value at target object."
  | .invalidRemoveOperation p => s!"Invalid remove operation for pointer: {p}"
  | .testMismatch => "Test operation failed due to value mismatch."

/-- The body of the `reduce` callback in `evaluate` (pointer.ts):
one evaluation step from the current value `acc` through `token`. -/
def evalToken (pointer : String) (acc : JSON) (token : List Char) : Except PErr JSON :=
  if truthy acc = false then .error (.unresolvablePointer pointer)
  else
    match acc with
    | .arr xs =>
      if token = ['-'] then .error .invalidArrayReference
      else if ¬ isUIntTokenL token then .error (.invalidArrayIndex (String.mk token))
      else if xs.length ≤ parseDecL token then
        .error (.arrayIndexOutOfBounds (parseDecL token))
      else .ok (xs.getD (parseDecL token) .undefined)
    | .obj kvs =>
      if hasOwn kvs (String.mk token) then .ok (getV kvs (String.mk token))
      else .error (.keyNotFound (String.mk token))
    | _ => .error (.cannotResolve (String.mk token))

/-- Function `evaluate` from pointer.ts. -/
def evaluate (object : JSON) (pointer : String) : Except PErr JSON :=
  let paths := interpretPaths pointer
  if isObject object = false then .error .rootNotObject
  else if paths.head? ≠ some [] then .error (.invalidPointer pointer)
  else if paths.length = 1 then .ok object
  else (paths.drop 1).foldlM (evalToken pointer) object

mutual
/-- Function `isEqual` from helpers.ts: deep structural equality over the JSON
value domain (`===` fast path, type check, arrays pairwise by index,
objects by key cardinality plus per-key comparison). -/
def isEqual : JSON → JSON → Bool
  | .null, .null => true
  | .undefined, .undefined => true
  | .bool a, .bool b => a == b
  | .num a, .num b => a == b
  | .str a, .str b => a == b
  | .arr a, .arr b => a.length == b.length && isEqualElems a b
  | .obj a, .obj b => a.length == b.length && isEqualFields a b
  | _, _ => false

/-- The check `a.every((val, idx) => isEqual(val, b[idx]))`: an out-of-range index
reads as the JavaScript `undefined`. -/
def isEqualElems : List JSON → List JSON → Bool
  | [], _ => true
  | a :: as, [] => isEqual a .undefined && isEqualElems as []
  | a :: as, b :: bs => isEqual a b && isEqualElems as bs

/-- The check `aKeys.every(key => Object.hasOwn(b, key) && isEqual(a[key], b[key]))`
on the distinct-key association-list model. -/
def isEqualFields : List (String × JSON) → List (String × JSON) → Bool
  | [], _ => true
  | (k, v) :: rest, b => (hasOwn b k && isEqual v (getV b k)) && isEqualFields rest b
end

/-- JSON Patch operation (src/src/types.ts `Operation`). -/
inductive Operation where
  | add : String → JSON → Operation
  | remove : String → Operation
  | replace : String → JSON → Operation
  | move : String → String → Operation
  | copy : String → String → Operation
  | test : String → JSON → Operation
deriving Repr

/-- Walks `tokens` through `acc` with exactly the step semantics of
`evalToken` and applies `f` to the resolved target, rebuilding the
document along the walked path: the functional translation of
"`target = evaluate(clone, pointer)`, then mutate `target` in place and
return the clone" used by `add` and `remove` in patch.ts. -/
def modifyTokens (pointer : String) (f : JSON → Except PErr JSON) :
    JSON → List (List Char) → Except PErr JSON
  | acc, [] => f acc
  | acc, token :: rest =>
    if truthy acc = false then .error (.unresolvablePointer pointer)
    else
      match acc with
      | .arr xs =>
        if token = ['-'] then .error .invalidArrayReference
        else if ¬ isUIntTokenL token then .error (.invalidArrayIndex (String.mk token))
        else if xs.length ≤ parseDecL token then
          .error (.arrayIndexOutOfBounds (parseDecL token))
        else
          match modifyTokens pointer f (xs.getD (parseDecL token) .undefined) rest with
          | .error e => .error e
          | .ok x => .ok (.arr (xs.set (parseDecL token) x))
      | .obj kvs =>
        if hasOwn kvs (String.mk token) then
          match modifyTokens pointer f (getV kvs (String.mk token)) rest with
          | .error e => .error e
          | .ok v => .ok (.obj (setK kvs (String.mk token) v))
        else .error (.keyNotFound (String.mk token))
      | _ => .error (.cannotResolve (String.mk token))

/-- Resolution `evaluate(clone, pointer)` followed by an in-place mutation `f` of
the resolved target, returning the clone: root checks exactly as in
`evaluate`, then `modifyTokens`. -/
def modifyRoot (object : JSON) (pointer : String) (f : JSON → Except PErr JSON) :
    Except PErr JSON :=
  let paths := interpretPaths pointer
  if isObject object = false then .error .rootNotObject
  else if paths.head? ≠ some [] then .error (.invalidPointer pointer)
  else if paths.length = 1 then f object
  else modifyTokens pointer f object (paths.drop 1)

/-- Insertion `splice(index, 0, value)`: insert at `index` (≤ length), shifting
later elements right. -/
def insertAt (xs : List JSON) (index : Nat) (value : JSON) : List JSON :=
  xs.take index ++ value :: xs.drop index

/-- Function `add` from patch.ts. -/
def add (object : JSON) (path : String) (value : JSON) : Except PErr JSON :=
  let paths := interpretPaths path
  let objectClone := object
  if paths.head? ≠ some [] then .error (.invalidPointer path)
  else if paths.length = 1 then .ok (.obj [("value", value)])
  else
    let lastEl := (paths.getLast?).getD []
    if lastEl = [] then .error (.invalidJsonPointer path)
    else
      modifyRoot objectClone (String.mk (joinSlash paths.dropLast)) (fun target =>
        if lastEl = ['-'] then
          match target with
          | .arr xs => .ok (.arr (xs ++ [value]))
          | _ => .error .invalidPointerOperation
        else if isUIntTokenL lastEl then
          match target with
          | .arr xs =>
            if xs.length < parseDecL lastEl then
              .error (.indexTooLarge (String.mk lastEl) xs.length)
            else .ok (.arr (insertAt xs (parseDecL lastEl) value))
          | _ => .error .invalidPointerOperation
        else
          match target with
          | .obj kvs => .ok (.obj (setK kvs (String.mk lastEl) value))
          | _ => .error (.invalidAddOperation path))

/-- The in-place mutation `remove` performs on the resolved target
(digit token: truthiness-checked splice; otherwise: definedness-checked
member deletion). -/
def removeMut (path : String) (lastEl : List Char) : JSON → Except PErr JSON :=
  fun target =>
    if isUIntTokenL lastEl then
      match target with
      | .arr xs =>
        if truthy (xs.getD (parseDecL lastEl) .undefined) = false then
          .error .nonExistentElement
        else .ok (.arr (xs.eraseIdx (parseDecL lastEl)))
      | _ => .error .cannotRemoveNonArray
    else
      match target with
      | .obj kvs =>
        if isUndefined (getV kvs (String.mk lastEl)) then .error .undefinedAtTarget
        else .ok (.obj (delK kvs (String.mk lastEl)))
      | _ => .error (.invalidRemoveOperation path)

/-- Function `remove` from patch.ts. -/
def remove (object : JSON) (path : String) : Except PErr JSON :=
  let paths := interpretPaths path
  let objectClone := object
  if paths.head? ≠ some [] then .error (.invalidPointer path)
  else if paths.length = 1 then .ok (.obj [])
  else
    let lastEl := (paths.getLast?).getD []
    if lastEl = [] then .ok object
    else if lastEl = ['-'] then .error (.invalidRemovePointer path)
    else
      modifyRoot objectClone (String.mk (joinSlash paths.dropLast)) (removeMut path lastEl)

/-- Function `replace` from patch.ts: `add(remove(object, op), op)`. -/
def replace (object : JSON) (path : String) (value : JSON) : Except PErr JSON := do
  let d ← remove object path
  add d path value

/-- Function `move` from patch.ts: evaluate `from` on the original document,
then `add(remove(object, from), path, value)`. -/
def move (object : JSON) (fromPath : String) (path : String) : Except PErr JSON := do
  let value ← evaluate object fromPath
  let d ← remove object fromPath
  add d path value

/-- Function `test` from patch.ts: on success the original document is returned. -/
def test (object : JSON) (path : String) (value : JSON) : Except PErr JSON := do
  let evaluateValue ← evaluate object path
  if isEqual evaluateValue value = false then .error .testMismatch
  else .ok object

/-- Function `copy` from patch.ts: identical `from` and `path` return the original
unchanged, otherwise `add` with the value evaluated at `from`. -/
def copy (object : JSON) (fromPath : String) (path : String) : Except PErr JSON :=
  if fromPath = path then .ok object
  else do
    let value ← evaluate object fromPath
    add object path value

/-- Function `apply` from patch.ts: dispatch on the operation kind. -/
def apply (object : JSON) : Operation → Except PErr JSON
  | .add path value => add object path value
  | .remove path => remove object path
  | .copy fromPath path => copy object fromPath path
  | .replace path value => replace object path value
  | .move fromPath path => move object fromPath path
  | .test path value => test object path value

/-- Function `applyPatch` from patch.ts:
`operations.reduce((object, operation) => apply(object, operation), object)`.
The optional hooks run purely for side effects after the fold and do not
affect the returned document, so they are omitted from the value-level
model. -/
def applyPatch (object : JSON) (operations : List Operation) : Except PErr JSON :=
  operations.foldlM apply object

end JsonPx

namespace JsonPx

example : evaluate (.obj [("a", .num 1),
    ("b", .obj [("c", .num 2), ("d", .arr [.num 3, .num 4])])]) "/b/d/1" = .ok (.num 4) := rfl

example : evaluate (.obj [("slash/key", .str "secret")]) "/slash~1key" = .ok (.str "secret") := rfl

example : evaluate (.arr [.num 1]) "/0" = .error .rootNotObject := rfl

example : unescapeToken "~01" = "~1" := rfl

example : escapeToken "a~b/c" = "a~0b~1c" := rfl

/-- The `initialObject` shared by the patch test suites of the repository. -/
def initialObject : JSON :=
  .obj [("a", .num 1),
        ("b", .obj [("c", .num 2), ("d", .arr [.num 3, .num 4])]),
        ("e", .arr [.num 5, .num 6])]

example : add (.obj []) "" (.obj [("key", .str "value")]) =
    .ok (.obj [("value", .obj [("key", .str "value")])]) := rfl

example : add initialObject "/b/newKey" (.num 42) =
    .ok (.obj [("a", .num 1),
               ("b", .obj [("c", .num 2), ("d", .arr [.num 3, .num 4]), ("newKey", .num 42)]),
               ("e", .arr [.num 5, .num 6])]) := rfl

example : add initialObject "/e/1" (.num 99) =
    .ok (.obj [("a", .num 1),
               ("b", .obj [("c", .num 2), ("d", .arr [.num 3, .num 4])]),
               ("e", .arr [.num 5, .num 99, .num 6])]) := rfl

example : add initialObject "/e/-" (.num 99) =
    .ok (.obj [("a", .num 1),
               ("b", .obj [("c", .num 2), ("d", .arr [.num 3, .num 4])]),
               ("e", .arr [.num 5, .num 6, .num 99])]) := rfl

example : add initialObject "/nonexistent/-" (.num 99) =
    .error (.keyNotFound "nonexistent") := rfl

example : remove initialObject "/b/c" =
    .ok (.obj [("a", .num 1),
               ("b", .obj [("d", .arr [.num 3, .num 4])]),
               ("e", .arr [.num 5, .num 6])]) := rfl

example : remove initialObject "/e/0" =
    .ok (.obj [("a", .num 1),
               ("b", .obj [("c", .num 2), ("d", .arr [.num 3, .num 4])]),
               ("e", .arr [.num 6])]) := rfl

example : remove initialObject "/nonexistent" = .error .undefinedAtTarget := rfl

example : replace initialObject "/b/c" (.num 99) =
    .ok (.obj [("a", .num 1),
               ("b", .obj [("d", .arr [.num 3, .num 4]), ("c", .num 99)]),
               ("e", .arr [.num 5, .num 6])]) := rfl

example : move initialObject "/b/c" "/b/newKey" =
    .ok (.obj [("a", .num 1),
               ("b", .obj [("d", .arr [.num 3, .num 4]), ("newKey", .num 2)]),
               ("e", .arr [.num 5, .num 6])]) := rfl

example : copy initialObject "/b/c" "/b/newKey" =
    .ok (.obj [("a", .num 1),
               ("b", .obj [("c", .num 2), ("d", .arr [.num 3, .num 4]), ("newKey", .num 2)]),
               ("e", .arr [.num 5, .num 6])]) := rfl

example : test initialObject "/b/d" (.arr [.num 3, .num 4]) = .ok initialObject := rfl

example : test initialObject "/a" (.num 999) = .error .testMismatch := rfl

example : applyPatch (.obj [("foo", .str "bar")])
    [.add "/baz" (.num 0), .remove "/foo", .test "/baz" (.num 0)] =
    .ok (.obj [("baz", .num 0)]) := rfl

theorem splitSlash_ne_nil (l : List Char) : splitSlash l ≠ [] := by
  cases l with
  | nil => simp [splitSlash]
  | cons c rest =>
    simp only [splitSlash]
    split
    · simp
    · split <;> simp

theorem splitSlash_append_slash (a b : List Char) :
    splitSlash (a ++ '/' :: b) = splitSlash a ++ splitSlash b := by
  induction a with
  | nil => simp [splitSlash]
  | cons c a ih =>
    by_cases hc : c = '/'
    · subst hc
      simp [splitSlash, ih]
    · cases h : splitSlash a with
      | nil => exact absurd h (splitSlash_ne_nil a)
      | cons t ts =>
        have e1 : splitSlash (a ++ '/' :: b) = t :: (ts ++ splitSlash b) := by
          rw [ih, h]; rfl
        have e2 : splitSlash (c :: a) = (c :: t) :: ts := by
          rw [splitSlash.eq_def]
          simp [hc, h]
        rw [List.cons_append, splitSlash.eq_def]
        simp only [hc, if_false, e1, e2]
        rfl

theorem splitSlash_of_no_slash (l : List Char) (h : ∀ c ∈ l, c ≠ '/') :
    splitSlash l = [l] := by
  induction l with
  | nil => rfl
  | cons c rest ih =>
    have hc : c ≠ '/' := h c (List.mem_cons_self c rest)
    have hrest : splitSlash rest = [rest] := ih (fun x hx => h x (List.mem_cons_of_mem c hx))
    simp [splitSlash, hc, hrest]

theorem joinSlash_cons_cons (c : Char) (t : List Char) (ts : List (List Char)) :
    joinSlash ((c :: t) :: ts) = c :: joinSlash (t :: ts) := by
  cases ts <;> simp [joinSlash]

theorem joinSlash_splitSlash (l : List Char) : joinSlash (splitSlash l) = l := by
  induction l with
  | nil => rfl
  | cons c rest ih =>
    by_cases hc : c = '/'
    · subst hc
      cases h : splitSlash rest with
      | nil => exact absurd h (splitSlash_ne_nil rest)
      | cons t ts =>
        rw [h] at ih
        simp [splitSlash, h, joinSlash, ih]
    · cases h : splitSlash rest with
      | nil => exact absurd h (splitSlash_ne_nil rest)
      | cons t ts =>
        rw [h] at ih
        simp only [splitSlash, if_neg hc, h]
        rw [joinSlash_cons_cons, ih]

theorem mem_of_mem_splitSlash (l t : List Char) (c : Char)
    (ht : t ∈ splitSlash l) (hc : c ∈ t) : c ∈ l := by
  induction l generalizing t with
  | nil =>
    simp [splitSlash] at ht
    subst ht
    exact absurd hc (List.not_mem_nil c)
  | cons ch rest ih =>
    by_cases hch : ch = '/'
    · subst hch
      simp only [splitSlash, if_pos rfl] at ht
      rcases List.mem_cons.mp ht with h1 | h2
      · subst h1
        exact absurd hc (List.not_mem_nil c)
      · exact List.mem_cons_of_mem _ (ih t h2 hc)
    · cases h : splitSlash rest with
      | nil => exact absurd h (splitSlash_ne_nil rest)
      | cons s ss =>
        simp only [splitSlash, if_neg hch, h] at ht
        rcases List.mem_cons.mp ht with h1 | h2
        · subst h1
          rcases List.mem_cons.mp hc with h3 | h4
          · subst h3
            exact List.mem_cons_self c rest
          · have hs : s ∈ splitSlash rest := by
              rw [h]; exact List.mem_cons_self s ss
            exact List.mem_cons_of_mem _ (ih s hs h4)
        · have ht2 : t ∈ splitSlash rest := by
            rw [h]; exact List.mem_cons_of_mem s h2
          exact List.mem_cons_of_mem _ (ih t ht2 hc)

theorem replacePair_cons_no_match (p q r a b : Char) (t : List Char)
    (h : ¬ (a = p ∧ b = q)) :
    replacePair p q r (a :: b :: t) = a :: replacePair p q r (b :: t) := by
  simp only [replacePair]
  rw [replacePairGo.eq_def]
  simp [h]

theorem replacePair_cons_of_ne (p q r a : Char) (t : List Char) (h : a ≠ p) :
    replacePair p q r (a :: t) = a :: replacePair p q r t := by
  cases t with
  | nil => rfl
  | cons b rest =>
    exact replacePair_cons_no_match p q r a b rest (fun hab => h hab.1)

theorem replacePair_cons_match (p q r : Char) (t : List Char) :
    replacePair p q r (p :: q :: t) = r :: replacePair p q r t := by
  cases t with
  | cons c rest => simp [replacePair, replacePairGo]
  | nil => simp [replacePair, replacePairGo]

theorem replacePair_of_no_head (p q r : Char) (l : List Char) (h : ∀ c ∈ l, c ≠ p) :
    replacePair p q r l = l := by
  induction l with
  | nil => rfl
  | cons a t ih =>
    rw [replacePair_cons_of_ne p q r a t (h a (List.mem_cons_self a t))]
    rw [ih (fun x hx => h x (List.mem_cons_of_mem a hx))]

theorem unescapeTokenL_of_no_tilde (l : List Char) (h : ∀ c ∈ l, c ≠ '~') :
    unescapeTokenL l = l := by
  unfold unescapeTokenL
  rw [replacePair_of_no_head _ _ _ l h, replacePair_of_no_head _ _ _ l h]

theorem unescape1_escape (l : List Char) :
    replacePair '~' '1' '/' (escapeSlash (escapeTilde l)) = escapeTilde l := by
  induction l with
  | nil => rfl
  | cons c rest ih =>
    by_cases h1 : c = '~'
    · subst h1
      have e1 : escapeTilde ('~' :: rest) = '~' :: '0' :: escapeTilde rest := by
        simp [escapeTilde]
      have e2 : escapeSlash ('~' :: '0' :: escapeTilde rest) =
          '~' :: '0' :: escapeSlash (escapeTilde rest) := by
        simp [escapeSlash]
      rw [e1, e2, replacePair_cons_no_match _ _ _ _ _ _ (by decide),
        replacePair_cons_of_ne _ _ _ _ _ (by decide), ih]
    · by_cases h2 : c = '/'
      · subst h2
        have e1 : escapeTilde ('/' :: rest) = '/' :: escapeTilde rest := by
          simp [escapeTilde]
        have e2 : escapeSlash ('/' :: escapeTilde rest) =
            '~' :: '1' :: escapeSlash (escapeTilde rest) := by
          simp [escapeSlash]
        rw [e1, e2, replacePair_cons_match, ih]
      · have e1 : escapeTilde (c :: rest) = c :: escapeTilde rest := by
          simp [escapeTilde, h1]
        have e2 : escapeSlash (c :: escapeTilde rest) =
            c :: escapeSlash (escapeTilde rest) := by
          simp [escapeSlash, h2]
        rw [e1, e2, replacePair_cons_of_ne _ _ _ _ _ h1, ih]

theorem unescape0_escapeTilde (l : List Char) :
    replacePair '~' '0' '~' (escapeTilde l) = l := by
  induction l with
  | nil => rfl
  | cons c rest ih =>
    by_cases h1 : c = '~'
    · subst h1
      have e1 : escapeTilde ('~' :: rest) = '~' :: '0' :: escapeTilde rest := by
        simp [escapeTilde]
      rw [e1, replacePair_cons_match, ih]
    · have e1 : escapeTilde (c :: rest) = c :: escapeTilde rest := by
        simp [escapeTilde, h1]
      rw [e1, replacePair_cons_of_ne _ _ _ _ _ h1, ih]

end JsonPx

namespace JsonPx

theorem except_foldlM_cons {α β ε : Type} (f : β → α → Except ε β) (b : β) (a : α)
    (l : List α) :
    (a :: l).foldlM f b =
      match f b a with
      | .error e => .error e
      | .ok b2 => l.foldlM f b2 := by
  cases h : f b a <;> simp [List.foldlM, h, Bind.bind, Except.bind]

theorem except_foldlM_append {α β ε : Type} (f : β → α → Except ε β) (b : β)
    (l1 l2 : List α) :
    (l1 ++ l2).foldlM f b =
      match l1.foldlM f b with
      | .error e => .error e
      | .ok b2 => l2.foldlM f b2 := by
  induction l1 generalizing b with
  | nil => simp [List.foldlM, Pure.pure, Except.pure]
  | cons a l ih =>
    rw [List.cons_append, except_foldlM_cons, except_foldlM_cons]
    cases h : f b a
    · rfl
    · simp only []
      exact ih _

theorem evalToken_ne_rootNotObject (p : String) (acc : JSON) (t : List Char) :
    evalToken p acc t ≠ .error .rootNotObject := by
  unfold evalToken
  split
  · simp
  · split
    · split
      · simp
      · split
        · simp
        · split <;> simp
    · split <;> simp
    · simp

theorem evalFold_ne_rootNotObject (p : String) (l : List (List Char)) (acc : JSON) :
    l.foldlM (evalToken p) acc ≠ .error .rootNotObject := by
  induction l generalizing acc with
  | nil => simp [List.foldlM, Pure.pure, Except.pure]
  | cons t ts ih =>
    rw [except_foldlM_cons]
    cases h : evalToken p acc t with
    | error e =>
      intro hh
      simp only [] at hh
      rw [hh] at h
      exact evalToken_ne_rootNotObject p acc t h
    | ok v => exact ih v

end JsonPx

namespace JsonPx

/-- C1 (counterexample): an Array-rooted document does fail with
`RootNotObject` — `evaluate([1], "/0")` raises it — contradicting the
claim that Object-or-Array-shaped roots never do. -/
theorem evaluate_arrayRoot_rootNotObject :
    evaluate (.arr [.num 1]) "/0" = .error .rootNotObject := rfl

/-- C1 (amended): `evaluate(D, P)` fails with `RootNotObject` exactly
when `isObject(D)` is false, i.e. when the root is a primitive, null,
absent, or an Array — Array-rooted documents are rejected too. -/
theorem rootNotObject_iff_not_isObject (D : JSON) (P : String) :
    evaluate D P = .error .rootNotObject ↔ isObject D = false := by
  by_cases hD : isObject D = false
  · simp [evaluate, hD]
  · have hD2 : isObject D = true := by
      cases hh : isObject D
      · exact absurd hh hD
      · rfl
    have he : evaluate D P ≠ .error .rootNotObject := by
      intro h
      simp only [evaluate, hD2, Bool.true_eq_false, if_false] at h
      split at h
      · simp at h
      · split at h
        · simp at h
        · exact evalFold_ne_rootNotObject _ _ _ h
    simp [he, hD2]

/-- C8 (counterexample): the empty-string pointer on an Array-rooted
document does not return the document: it fails with `RootNotObject`. -/
theorem evaluate_empty_pointer_array_fails :
    evaluate (.arr []) "" = .error .rootNotObject := rfl

/-- C8 (amended): for every Object-shaped document `D` (the root passes
`isObject`), `evaluate(D, "")` succeeds and returns `D` unchanged. -/
theorem evaluate_empty_pointer (D : JSON) (h : isObject D = true) :
    evaluate D "" = .ok D := by
  unfold evaluate
  have h1 : interpretPaths "" = [[]] := rfl
  simp [h1, h]

theorem evaluate_empty_pointer_witness :
    evaluate (.obj [("a", .num 1)]) "" = .ok (.obj [("a", .num 1)]) :=
  evaluate_empty_pointer (.obj [("a", .num 1)]) rfl

/-- C3: `add(D, {path: "", value: v})` succeeds for every document `D`
and every value `v`, returning the fresh one-member container
`{value: v}` — the root is wrapped, not replaced. -/
theorem add_empty_path (D v : JSON) :
    add D "" v = .ok (.obj [("value", v)]) := by
  unfold add
  have h1 : interpretPaths "" = [[]] := rfl
  simp [h1]

/-- C10: token escaping and unescaping round-trip on every string:
`unescapeToken (escapeToken s) = s`. -/
theorem unescapeToken_escapeToken (s : String) :
    unescapeToken (escapeToken s) = s := by
  unfold unescapeToken escapeToken unescapeTokenL
  show String.mk (replacePair '~' '0' '~'
    (replacePair '~' '1' '/' (escapeSlash (escapeTilde s.data)))) = s
  rw [unescape1_escape, unescape0_escapeTilde]

end JsonPx

namespace JsonPx

theorem unescapeTokenL_deg (l : List Char) :
    unescapeTokenL ('~' :: '0' :: '1' :: l) = '~' :: '1' :: unescapeTokenL l := by
  unfold unescapeTokenL
  rw [replacePair_cons_no_match '~' '1' '/' '~' '0' ('1' :: l) (by decide)]
  rw [replacePair_cons_of_ne '~' '1' '/' '0' ('1' :: l) (by decide)]
  rw [replacePair_cons_of_ne '~' '1' '/' '1' l (by decide)]
  rw [replacePair_cons_match '~' '0' '~' ('1' :: replacePair '~' '1' '/' l)]
  rw [replacePair_cons_of_ne '~' '0' '~' '1' (replacePair '~' '1' '/' l) (by decide)]

/-- C7: unescaping runs the `~1`→`/` pass before the `~0`→`~` pass, so a
token beginning with the degenerate encoding `~01` decodes to `~1`
followed by the decoding of the rest (never to `/`); in particular
`unescapeToken "~01" = "~1"`, and pointers using `~1` (resp. `~0`)
address keys literally containing `/` (resp. `~`). -/
theorem unescape_order (s : String) :
    unescapeToken (String.mk ('~' :: '0' :: '1' :: s.data)) =
      String.mk ('~' :: '1' :: (unescapeToken s).data) ∧
    unescapeToken "~01" = "~1" ∧
    evaluate (.obj [("slash/key", .str "secret")]) "/slash~1key" = .ok (.str "secret") ∧
    evaluate (.obj [("tilde~key", .num 123)]) "/tilde~0key" = .ok (.num 123) := by
  refine ⟨?_, rfl, rfl, rfl⟩
  unfold unescapeToken
  rw [show (String.mk ('~' :: '0' :: '1' :: s.data)).data =
    '~' :: '0' :: '1' :: s.data from rfl]
  rw [unescapeTokenL_deg]

theorem uint_token_ne_minus (t : List Char) (h : isUIntTokenL t = true) : t ≠ ['-'] := by
  intro hh
  subst hh
  exact absurd h (by decide)

/-- C6: whenever evaluation reaches an Array value, the token `-` fails
with `InvalidArrayReference`; a token not matching `/^\d+$/` fails with
`InvalidArrayIndex`; a parsed index not strictly below the array length
fails with `ArrayIndexOutOfBounds`; otherwise the walk continues with
the element at that index; and
`evaluate({a:1,b:{c:2,d:[3,4]}}, "/b/d/1") = 4`. -/
theorem evalToken_array_semantics :
    (∀ (p : String) (xs : List JSON),
      evalToken p (.arr xs) ['-'] = .error .invalidArrayReference) ∧
    (∀ (p : String) (xs : List JSON) (t : List Char), t ≠ ['-'] →
      isUIntTokenL t = false →
      evalToken p (.arr xs) t = .error (.invalidArrayIndex (String.mk t))) ∧
    (∀ (p : String) (xs : List JSON) (t : List Char), isUIntTokenL t = true →
      xs.length ≤ parseDecL t →
      evalToken p (.arr xs) t = .error (.arrayIndexOutOfBounds (parseDecL t))) ∧
    (∀ (p : String) (xs : List JSON) (t : List Char), isUIntTokenL t = true →
      parseDecL t < xs.length →
      evalToken p (.arr xs) t = .ok (xs.getD (parseDecL t) .undefined)) ∧
    evaluate (.obj [("a", .num 1), ("b", .obj [("c", .num 2), ("d", .arr [.num 3, .num 4])])])
      "/b/d/1" = .ok (.num 4) := by
  refine ⟨?_, ?_, ?_, ?_, rfl⟩
  · intro p xs
    simp [evalToken, truthy]
  · intro p xs t h1 h2
    simp [evalToken, truthy, h1, h2]
  · intro p xs t h1 h2
    simp [evalToken, truthy, h1, h2, uint_token_ne_minus t h1]
  · intro p xs t h1 h2
    simp [evalToken, truthy, h1, uint_token_ne_minus t h1, Nat.not_le.mpr h2, h2]

theorem evalToken_array_semantics_witness :
    evalToken "p" (.arr [.num 5]) ['x'] = .error (.invalidArrayIndex (String.mk ['x'])) ∧
    evalToken "p" (.arr [.num 5]) ['3'] = .error (.arrayIndexOutOfBounds 3) ∧
    evalToken "p" (.arr [.num 5]) ['0'] = .ok (.num 5) :=
  ⟨evalToken_array_semantics.2.1 "p" [.num 5] ['x'] (by decide) (by decide),
   evalToken_array_semantics.2.2.1 "p" [.num 5] ['3'] (by decide) (by decide),
   evalToken_array_semantics.2.2.2.1 "p" [.num 5] ['0'] (by decide) (by decide)⟩

end JsonPx

namespace JsonPx

/-- C2: with no hooks, `applyPatch` equals the left-to-right fold of
`apply` over the operation list starting from the input document, and
the fold is fail-fast: if an operation raises an error, the whole call
returns that error — the later operations and every intermediate
document are discarded. -/
theorem applyPatch_fold_failfast (D : JSON) :
    (∀ ops : List Operation, applyPatch D ops = ops.foldlM apply D) ∧
    (∀ (pre : List Operation) (op : Operation) (post : List Operation)
        (D2 : JSON) (e : PErr),
      applyPatch D pre = .ok D2 → apply D2 op = .error e →
      applyPatch D (pre ++ op :: post) = .error e) := by
  refine ⟨fun ops => rfl, ?_⟩
  intro pre op post D2 e h1 h2
  show (pre ++ op :: post).foldlM apply D = .error e
  rw [except_foldlM_append]
  have h1e : pre.foldlM apply D = .ok D2 := h1
  rw [h1e]
  show (op :: post).foldlM apply D2 = .error e
  rw [except_foldlM_cons, h2]

theorem applyPatch_fold_failfast_witness :
    applyPatch (.obj []) [.test "" (.num 0), .remove "/a"] = .error .testMismatch :=
  (applyPatch_fold_failfast (.obj [])).2 [] (.test "" (.num 0)) [.remove "/a"]
    (.obj []) .testMismatch rfl rfl

/-- C4: when `path` resolves in `D` to the value `w`, `test(D, {path, value})`
returns the very document `D` if `w` is `isEqual` to `value`, and fails
with `TestMismatch` (exact message "Test operation failed due to value
mismatch.") otherwise — in both cases `D` itself is untouched. -/
theorem test_semantics (D : JSON) (p : String) (v w : JSON)
    (h : evaluate D p = .ok w) :
    (isEqual w v = true → test D p v = .ok D) ∧
    (isEqual w v = false → test D p v = .error .testMismatch) ∧
    PErr.message .testMismatch = "Test operation failed due to value mismatch." := by
  refine ⟨?_, ?_, rfl⟩ <;> intro hv
  · unfold test
    rw [h]
    show (if isEqual w v = false then Except.error PErr.testMismatch else Except.ok D) =
      Except.ok D
    simp [hv]
  · unfold test
    rw [h]
    show (if isEqual w v = false then Except.error PErr.testMismatch else Except.ok D) =
      Except.error PErr.testMismatch
    simp [hv]

theorem test_semantics_witness :
    test (.obj [("a", .num 1)]) "/a" (.num 1) = .ok (.obj [("a", .num 1)]) :=
  (test_semantics (.obj [("a", .num 1)]) "/a" (.num 1) (.num 1) rfl).1 rfl

end JsonPx

namespace JsonPx

theorem map_id_of_mem {α : Type} (l : List α) (f : α → α) (h : ∀ x ∈ l, f x = x) :
    l.map f = l := by
  induction l with
  | nil => rfl
  | cons a t ih =>
    rw [List.map_cons, h a (List.mem_cons_self a t),
      ih (fun x hx => h x (List.mem_cons_of_mem a hx))]

theorem getD_set_self {α : Type} (xs : List α) (i : Nat) (x d : α) (h : i < xs.length) :
    (xs.set i x).getD i d = x := by
  induction xs generalizing i with
  | nil => simp at h
  | cons a t ih =>
    cases i with
    | zero => rfl
    | succ n =>
      simp only [List.set, List.getD, List.getElem?_cons_succ]
      exact ih n (by simpa using h)

theorem getV_map_set (k : String) (v : JSON) :
    ∀ kvs : List (String × JSON), hasOwn kvs k = true →
      getV (kvs.map (fun kv => if kv.1 == k then (kv.1, v) else kv)) k = v := by
  intro kvs
  induction kvs with
  | nil =>
    intro h
    simp [hasOwn] at h
  | cons a t ih =>
    intro h
    by_cases ha : (a.1 == k) = true
    · rw [List.map_cons, if_pos ha]
      unfold getV
      rw [List.find?_cons_of_pos _ (by simpa using ha)]
    · rw [List.map_cons, if_neg ha]
      unfold getV
      rw [List.find?_cons_of_neg _ (by simpa using ha)]
      have h2 : hasOwn t k = true := by
        simp only [hasOwn, List.any_cons, Bool.or_eq_true] at h
        rcases h with h1 | h1
        · exact absurd h1 ha
        · exact h1
      exact ih h2

theorem getV_append_single (k : String) (v : JSON) :
    ∀ kvs : List (String × JSON), hasOwn kvs k = false →
      getV (kvs ++ [(k, v)]) k = v := by
  intro kvs
  induction kvs with
  | nil =>
    intro h
    unfold getV
    rw [List.nil_append, List.find?_cons_of_pos _ (by simp)]
  | cons a t ih =>
    intro h
    simp only [hasOwn, List.any_cons, Bool.or_eq_false_iff] at h
    rw [List.cons_append]
    unfold getV
    rw [List.find?_cons_of_neg _ (by simp [h.1])]
    exact ih (by simp [hasOwn, h.2])

theorem getV_setK (kvs : List (String × JSON)) (k : String) (v : JSON) :
    getV (setK kvs k v) k = v := by
  unfold setK
  by_cases h : hasOwn kvs k = true
  · rw [if_pos h]
    exact getV_map_set k v kvs h
  · rw [if_neg h]
    exact getV_append_single k v kvs (by simpa using h)

theorem hasOwn_map_set (k : String) (v : JSON) :
    ∀ kvs : List (String × JSON), hasOwn kvs k = true →
      hasOwn (kvs.map (fun kv => if kv.1 == k then (kv.1, v) else kv)) k = true := by
  intro kvs
  induction kvs with
  | nil =>
    intro h
    simp [hasOwn] at h
  | cons a t ih =>
    intro h
    by_cases ha : (a.1 == k) = true
    · rw [List.map_cons, if_pos ha]
      simp [hasOwn, List.any_cons, ha]
    · rw [List.map_cons, if_neg ha]
      simp only [hasOwn, List.any_cons, Bool.or_eq_true] at h ⊢
      rcases h with h1 | h2
      · exact absurd h1 ha
      · exact Or.inr (ih h2)

theorem hasOwn_setK (kvs : List (String × JSON)) (k : String) (v : JSON) :
    hasOwn (setK kvs k v) k = true := by
  unfold setK
  by_cases h : hasOwn kvs k = true
  · rw [if_pos h]
    exact hasOwn_map_set k v kvs h
  · rw [if_neg h]
    simp [hasOwn, List.any_append]

theorem uint_token_all_digits (t : List Char) (h : isUIntTokenL t = true) :
    ∀ c ∈ t, c.isDigit = true := by
  simp only [isUIntTokenL, Bool.and_eq_true, List.all_eq_true] at h
  exact h.2

theorem uint_token_no_tilde (t : List Char) (h : isUIntTokenL t = true) :
    ∀ c ∈ t, c ≠ '~' := by
  intro c hc he
  subst he
  exact absurd (uint_token_all_digits t h _ hc) (by decide)

theorem uint_token_no_slash (t : List Char) (h : isUIntTokenL t = true) :
    ∀ c ∈ t, c ≠ '/' := by
  intro c hc he
  subst he
  exact absurd (uint_token_all_digits t h _ hc) (by decide)

theorem uint_token_ne_nil (t : List Char) (h : isUIntTokenL t = true) : t ≠ [] := by
  intro he
  subst he
  exact absurd h (by decide)

theorem stringMk_data (s : String) : String.mk s.data = s := rfl

theorem interpretPaths_clean (pp : String) (h : ∀ c ∈ pp.data, c ≠ '~') :
    interpretPaths pp = splitSlash pp.data := by
  unfold interpretPaths
  exact map_id_of_mem _ _ (fun tkn htkn =>
    unescapeTokenL_of_no_tilde tkn (fun c hc => h c (mem_of_mem_splitSlash _ _ _ htkn hc)))

theorem evalToken_arr_run (p : String) (xs : List JSON) (tok : List Char)
    (h1 : isUIntTokenL tok = true) (h2 : parseDecL tok < xs.length) :
    evalToken p (.arr xs) tok = .ok (xs.getD (parseDecL tok) .undefined) := by
  simp [evalToken, truthy, h1, uint_token_ne_minus tok h1, Nat.not_le.mpr h2]

theorem evalToken_obj_run (p : String) (kvs : List (String × JSON)) (tok : List Char)
    (h : hasOwn kvs (String.mk tok) = true) :
    evalToken p (.obj kvs) tok = .ok (getV kvs (String.mk tok)) := by
  simp [evalToken, truthy, h]

theorem modifyTokens_arr_run (p : String) (f : JSON → Except PErr JSON)
    (xs : List JSON) (tok : List Char) (rest : List (List Char))
    (h1 : isUIntTokenL tok = true) (h2 : parseDecL tok < xs.length) :
    modifyTokens p f (.arr xs) (tok :: rest) =
      match modifyTokens p f (xs.getD (parseDecL tok) .undefined) rest with
      | .error e => .error e
      | .ok x => .ok (.arr (xs.set (parseDecL tok) x)) := by
  simp [modifyTokens, truthy, h1, uint_token_ne_minus tok h1, Nat.not_le.mpr h2]

theorem modifyTokens_obj_run (p : String) (f : JSON → Except PErr JSON)
    (kvs : List (String × JSON)) (tok : List Char) (rest : List (List Char))
    (h : hasOwn kvs (String.mk tok) = true) :
    modifyTokens p f (.obj kvs) (tok :: rest) =
      match modifyTokens p f (getV kvs (String.mk tok)) rest with
      | .error e => .error e
      | .ok v => .ok (.obj (setK kvs (String.mk tok) v)) := by
  simp [modifyTokens, truthy, h]

end JsonPx

namespace JsonPx

theorem evalToken_ok_shape (p : String) (acc : JSON) (tok : List Char) (m : JSON)
    (h : evalToken p acc tok = .ok m) :
    (∃ xs, acc = .arr xs ∧ isUIntTokenL tok = true ∧ parseDecL tok < xs.length ∧
      m = xs.getD (parseDecL tok) .undefined) ∨
    (∃ kvs, acc = .obj kvs ∧ hasOwn kvs (String.mk tok) = true ∧
      m = getV kvs (String.mk tok)) := by
  unfold evalToken at h
  split at h
  · simp at h
  · split at h
    · rename_i xs htruthy
      split at h
      · simp at h
      · split at h
        · simp at h
        · split at h
          · simp at h
          · rename_i huint hle
            left
            refine ⟨xs, rfl, ?_, Nat.lt_of_not_le hle, by simpa using h.symm⟩
            by_contra hu
            exact huint (by simpa using hu)
    · rename_i kvs htruthy2
      split at h
      · rename_i hown
        right
        exact ⟨kvs, rfl, hown, by simpa using h.symm⟩
      · simp at h
    · simp at h

theorem modify_of_eval (p : String) (f : JSON → Except PErr JSON) :
    ∀ (tokens : List (List Char)) (acc t : JSON),
      tokens.foldlM (evalToken p) acc = .ok t →
      (∀ e, f t = .error e → modifyTokens p f acc tokens = .error e) ∧
      (∀ t2, f t = .ok t2 →
        ∃ r, modifyTokens p f acc tokens = .ok r ∧
          tokens.foldlM (evalToken p) r = .ok t2 ∧
          (tokens ≠ [] → isObject r = isObject acc)) := by
  intro tokens
  induction tokens with
  | nil =>
    intro acc t h
    have ht : acc = t := by
      simpa [List.foldlM, Pure.pure, Except.pure] using h
    subst ht
    refine ⟨fun e he => ?_, fun t2 h2 => ⟨t2, ?_, ?_, fun hne => absurd rfl hne⟩⟩
    · simpa [modifyTokens] using he
    · simpa [modifyTokens] using h2
    · simp [List.foldlM, Pure.pure, Except.pure]
  | cons tok rest ih =>
    intro acc t h
    rw [except_foldlM_cons] at h
    cases hstep : evalToken p acc tok with
    | error e =>
      rw [hstep] at h
      simp at h
    | ok m =>
      rw [hstep] at h
      have hrest : rest.foldlM (evalToken p) m = .ok t := h
      obtain ⟨ihE, ihO⟩ := ih m t hrest
      rcases evalToken_ok_shape p acc tok m hstep with
        ⟨xs, haq, huint, hlt, hm⟩ | ⟨kvs, haq, hown, hm⟩
      · subst haq
        subst hm
        refine ⟨fun e he => ?_, fun t2 h2 => ?_⟩
        · rw [modifyTokens_arr_run p f xs tok rest huint hlt, ihE e he]
        · obtain ⟨r0, hr0, hfold, _⟩ := ihO t2 h2
          refine ⟨.arr (xs.set (parseDecL tok) r0), ?_, ?_, fun _ => rfl⟩
          · rw [modifyTokens_arr_run p f xs tok rest huint hlt, hr0]
          · rw [except_foldlM_cons,
              evalToken_arr_run p _ tok huint (by rw [List.length_set]; exact hlt),
              getD_set_self xs (parseDecL tok) r0 .undefined hlt]
            exact hfold
      · subst haq
        subst hm
        refine ⟨fun e he => ?_, fun t2 h2 => ?_⟩
        · rw [modifyTokens_obj_run p f kvs tok rest hown, ihE e he]
        · obtain ⟨r0, hr0, hfold, _⟩ := ihO t2 h2
          refine ⟨.obj (setK kvs (String.mk tok) r0), ?_, ?_, fun _ => rfl⟩
          · rw [modifyTokens_obj_run p f kvs tok rest hown, hr0]
          · rw [except_foldlM_cons,
              evalToken_obj_run p _ tok (hasOwn_setK kvs _ r0),
              getV_setK kvs _ r0]
            exact hfold

end JsonPx

namespace JsonPx

theorem evaluate_ok_arr_parts (D : JSON) (pp : String) (xs : List JSON)
    (h : evaluate D pp = .ok (.arr xs)) :
    isObject D = true ∧ (interpretPaths pp).head? = some [] ∧
    (interpretPaths pp).length ≠ 1 ∧
    ((interpretPaths pp).drop 1).foldlM (evalToken pp) D = .ok (.arr xs) := by
  simp only [evaluate] at h
  by_cases h1 : isObject D = false
  · rw [if_pos h1] at h
    simp at h
  · have hD : isObject D = true := by
      cases hh : isObject D
      · exact absurd hh h1
      · rfl
    rw [if_neg h1] at h
    split at h
    · simp at h
    · rename_i hhead
      split at h
      · rename_i hlen
        have hDx : D = .arr xs := by simpa using h
        rw [hDx] at hD
        simp [isObject] at hD
      · rename_i hlen
        exact ⟨hD, not_not.mp hhead, hlen, h⟩

/-- C5 (counterexample): the claim fails as stated because `remove`
re-joins the already unescaped parent tokens and `evaluate` unescapes
them a second time.  In `{"a~0": [0]}` the parent path `/a~00` resolves
(by `evaluate`) to the array `[0]`, index `0` is in bounds, the element
`0` is falsy — yet `remove` fails with `KeyNotFound "a~"` (the doubly
unescaped key), not with `InvalidRemoveTarget`. -/
theorem remove_falsy_counterexample :
    evaluate (.obj [("a~0", .arr [.num 0])]) "/a~00" = .ok (.arr [.num 0]) ∧
    truthy (.num 0) = false ∧
    remove (.obj [("a~0", .arr [.num 0])]) "/a~00/0" = .error (.keyNotFound "a~") :=
  ⟨rfl, rfl, rfl⟩

/-- C5 (amended): restricted to parent pointers containing no `~`
character (so that the internal re-join and re-unescape of the parent
pointer inside `remove` preserves its tokens), the claim holds: if the parent
path resolves in `D` to an Array and the unsigned-integer token `t`
denotes an in-bounds index, then `remove` at `parent ++ "/" ++ t` fails
with `InvalidRemoveTarget` ("Attempting to index non-existent element at
target array.") when the element at that index is falsy (`0`, `""`,
`false`, `null`), and succeeds by splicing the element out when the
element is truthy. -/
theorem remove_array_falsy (D : JSON) (pp : String) (t : List Char) (xs : List JSON)
    (hclean : ∀ c ∈ pp.data, c ≠ '~')
    (htok : isUIntTokenL t = true)
    (hpar : evaluate D pp = .ok (.arr xs))
    (hi : parseDecL t < xs.length) :
    (truthy (xs.getD (parseDecL t) .undefined) = false →
      remove D (pp ++ String.mk ('/' :: t)) = .error .nonExistentElement ∧
      PErr.message .nonExistentElement =
        "Attempting to index non-existent element at target array.") ∧
    (truthy (xs.getD (parseDecL t) .undefined) = true →
      ∃ r, remove D (pp ++ String.mk ('/' :: t)) = .ok r ∧
        evaluate r pp = .ok (.arr (xs.eraseIdx (parseDecL t)))) := by
  obtain ⟨hD, hhead, hlen1, hfold⟩ := evaluate_ok_arr_parts D pp xs hpar
  have hip : interpretPaths pp = splitSlash pp.data := interpretPaths_clean pp hclean
  rw [hip] at hhead hlen1 hfold
  have hPne : splitSlash pp.data ≠ [] := splitSlash_ne_nil pp.data
  have hdata : (pp ++ String.mk ('/' :: t)).data = pp.data ++ '/' :: t := by
    rw [String.data_append]
  have hsplit : splitSlash (pp.data ++ '/' :: t) = splitSlash pp.data ++ [t] := by
    rw [splitSlash_append_slash, splitSlash_of_no_slash t (uint_token_no_slash t htok)]
  have hipath : interpretPaths (pp ++ String.mk ('/' :: t)) = splitSlash pp.data ++ [t] := by
    unfold interpretPaths
    rw [hdata, hsplit, List.map_append]
    have e1 : (splitSlash pp.data).map unescapeTokenL = splitSlash pp.data := hip
    have e2 : [t].map unescapeTokenL = [t] := by
      rw [List.map_cons, List.map_nil,
        unescapeTokenL_of_no_tilde t (uint_token_no_tilde t htok)]
    rw [e1, e2]
  have hhead2 : (splitSlash pp.data ++ [t]).head? = some [] := by
    cases hc : splitSlash pp.data with
    | nil => exact absurd hc hPne
    | cons a as =>
      rw [hc] at hhead
      simpa using hhead
  have hlen2 : (splitSlash pp.data ++ [t]).length ≠ 1 := by
    have h0 : 0 < (splitSlash pp.data).length := List.length_pos.mpr hPne
    simp only [List.length_append, List.length_cons, List.length_nil]
    omega
  have htne : t ≠ [] := uint_token_ne_nil t htok
  have htnm : t ≠ ['-'] := uint_token_ne_minus t htok
  have htokens : ((splitSlash pp.data).drop 1) ≠ [] := by
    intro hcon
    have h0 : 0 < (splitSlash pp.data).length := List.length_pos.mpr hPne
    have hL : ((splitSlash pp.data).drop 1).length = 0 := by rw [hcon]; rfl
    rw [List.length_drop] at hL
    omega
  have hred : remove D (pp ++ String.mk ('/' :: t)) =
      modifyTokens pp (removeMut (pp ++ String.mk ('/' :: t)) t)
        D ((splitSlash pp.data).drop 1) := by
    simp only [remove, hipath]
    rw [if_neg (by simp [hhead2])]
    rw [if_neg hlen2]
    rw [List.getLast?_concat, Option.getD_some]
    rw [if_neg htne, if_neg htnm]
    rw [List.dropLast_concat, joinSlash_splitSlash, stringMk_data]
    simp only [modifyRoot, hip]
    rw [if_neg (by simp [hD])]
    rw [if_neg (by simp [hhead])]
    rw [if_neg hlen1]
  constructor
  · intro hf
    have happ := (modify_of_eval pp (removeMut (pp ++ String.mk ('/' :: t)) t)
        ((splitSlash pp.data).drop 1) D (.arr xs) hfold).1
      PErr.nonExistentElement (by
        have hf2 : truthy (xs[parseDecL t]?.getD JSON.undefined) = false := by simpa using hf
        simp [removeMut, htok, hf2])
    rw [hred]
    exact ⟨happ, rfl⟩
  · intro hf
    obtain ⟨r, hr, hfold2, hshape⟩ :=
      (modify_of_eval pp (removeMut (pp ++ String.mk ('/' :: t)) t)
        ((splitSlash pp.data).drop 1) D (.arr xs) hfold).2
        (.arr (xs.eraseIdx (parseDecL t))) (by
          have hf2 : truthy (xs[parseDecL t]?.getD JSON.undefined) = true := by simpa using hf
          simp [removeMut, htok, hf2])
    refine ⟨r, by rw [hred]; exact hr, ?_⟩
    have hrObj : isObject r = true := by
      rw [hshape htokens]
      exact hD
    simp only [evaluate, hip]
    rw [if_neg (by simp [hrObj])]
    rw [if_neg (by simp [hhead])]
    rw [if_neg hlen1]
    exact hfold2

theorem remove_array_falsy_witness :
    (remove (.obj [("e", .arr [.num 5, .num 0])]) "/e/1" = .error .nonExistentElement) ∧
    (∃ r, remove (.obj [("e", .arr [.num 5, .num 0])]) "/e/0" = .ok r ∧
      evaluate r "/e" = .ok (.arr (List.eraseIdx [.num 5, .num 0] 0))) :=
  ⟨((remove_array_falsy (.obj [("e", .arr [.num 5, .num 0])]) "/e" ['1']
      [.num 5, .num 0] (by decide) (by decide) rfl (by decide)).1 (by decide)).1,
   (remove_array_falsy (.obj [("e", .arr [.num 5, .num 0])]) "/e" ['0']
      [.num 5, .num 0] (by decide) (by decide) rfl (by decide)).2 (by decide)⟩

end JsonPx
